import Mathlib

/-!
Shallow embedding of the repository's agentic templates:
  - src/templates/agentic/prompt-versioning.ts (PromptRegistry, PromptExperiment)
  - src/templates/agentic/cost-tracking.ts (CostTracker.calculateCost, BudgetManager
    alerting, RateLimiter.checkLimit)

Modelling conventions:
  - JS `Map` becomes an association list (`alGet`/`alSet`) that preserves JS Map
    iteration order (insertion order; `set` on an existing key keeps its slot).
  - JS numbers become `ℚ` where arithmetic matters (costs, weights, rates) and
    `Nat`/`Int` for counters and timestamps; the two-proportion z-test, which
    needs a square root, is modelled over `ℝ`.
  - Thrown exceptions become `Except` values; mutation of `this` becomes explicit
    state passing.  A statement such as `this.assignments.set(...)` that happens
    before a throwing call keeps its effect in the returned state, mirroring JS.
  - The md5 hash used for bucketing is external library code (`crypto`), so it is
    abstracted as a parameter `hashFn : String → Nat`, reduced mod 2^32 like the
    8-hex-digit prefix the source parses.
-/

namespace MasterTemplate

/-! ### Association lists mirroring JS `Map` semantics -/

/-- `Map.get`: first binding for the key, if any. -/
def alGet {α : Type} (k : String) : List (String × α) → Option α
  | [] => none
  | p :: rest => if p.1 = k then some p.2 else alGet k rest

/-- `Map.set`: overwrite in place if the key exists (keeping its position),
otherwise append at the end — JS Map insertion-order semantics. -/
def alSet {α : Type} (k : String) (v : α) : List (String × α) → List (String × α)
  | [] => [(k, v)]
  | p :: rest => if p.1 = k then (k, v) :: rest else p :: alSet k v rest

/-! ### `{{identifier}}` placeholder machinery

The source uses the regex `/\{\{(\w+)\}\}/g`.  `\w` is `[A-Za-z0-9_]`.  Two
matches of this pattern can never overlap (a match needs a double brace start,
which cannot occur strictly inside another match), so a character-by-character
scan finds exactly the matches the global regex finds. -/

def lbrace : Char := Char.ofNat 123

def rbrace : Char := Char.ofNat 125

def isWordChar (c : Char) : Bool := c.isAlphanum || c = '_'

/-- Does the pattern `\{\{(\w+)\}\}` match at the head of the list?  If so,
return the captured word and the remainder after the match. -/
def placeholderAt : List Char → Option (List Char × List Char)
  | a :: b :: rest =>
    if a = lbrace ∧ b = lbrace then
      let w := rest.takeWhile isWordChar
      let r := rest.dropWhile isWordChar
      if w = [] then none
      else
        match r with
        | x :: y :: r2 => if x = rbrace ∧ y = rbrace then some (w, r2) else none
        | _ => none
    else none
  | _ => none

/-- `rendered.match(/\{\{(\w+)\}\}/g) !== null`: some placeholder occurs
somewhere in the text. -/
def hasPlaceholder : List Char → Bool
  | [] => false
  | c :: rest => (placeholderAt (c :: rest)).isSome || hasPlaceholder rest

/-- All placeholder names, in match order — the source's
`Array.from(content.matchAll(/\{\{(\w+)\}\}/g)).map(m => m[1])`. -/
def extractVars : List Char → List String
  | [] => []
  | c :: rest =>
    match placeholderAt (c :: rest) with
    | some (w, _) => String.mk w :: extractVars rest
    | none => extractVars rest

/-- Do the first `pat.length` elements of `s` equal `pat`? -/
def listStartsWith (pat s : List Char) : Bool :=
  match pat, s with
  | [], _ => true
  | _ :: _, [] => false
  | a :: as, b :: bs => a = b && listStartsWith as bs

def dollar : Char := Char.ofNat 36

def amp : Char := Char.ofNat 38

def backquote : Char := Char.ofNat 96

def singleQuote : Char := Char.ofNat 39

/-- ECMAScript `GetSubstitution` for a string replacement value, for a pattern
with no capture groups (the source builds `\{\{key\}\}`, which has none):
`$$` inserts `$`, `$&` the matched substring, `` $` `` the portion of the
subject before the match, `$'` the portion after it; every other `$` sequence
(including `$n`, since there is no nth group, and `$<`) passes through
literally.  Inserted text is not rescanned for `$`. -/
def expandDollar (matched before after : List Char) : List Char → List Char
  | [] => []
  | [c] => [c]
  | c :: d :: r2 =>
    if c = dollar then
      if d = dollar then dollar :: expandDollar matched before after r2
      else if d = amp then matched ++ expandDollar matched before after r2
      else if d = backquote then before ++ expandDollar matched before after r2
      else if d = singleQuote then after ++ expandDollar matched before after r2
      else c :: expandDollar matched before after (d :: r2)
    else c :: expandDollar matched before after (d :: r2)

/-- Global, left-to-right, non-overlapping replacement of a literal pattern —
the semantics of `str.replace(regex, value)` for a group-free literal regex and
a string `value`, including the `$`-pattern expansion of the replacement.  The
`pre` accumulator is the subject prefix already scanned (for `` $` ``/`$'`);
matches are found against the original subject and replacement text is not
rescanned.  The `Nat` is fuel, instantiated with the text's length so the
recursion is structural (and hence kernel-reducible). -/
def replaceAllFuel (pat rep : List Char) : Nat → List Char → List Char → List Char
  | 0, _, s => s
  | _ + 1, _, [] => []
  | n + 1, pre, c :: rest =>
    if pat ≠ [] ∧ listStartsWith pat (c :: rest) then
      expandDollar pat pre ((c :: rest).drop pat.length) rep ++
        replaceAllFuel pat rep n (pre ++ pat) ((c :: rest).drop pat.length)
    else
      c :: replaceAllFuel pat rep n (pre ++ [c]) rest

def replaceAll (s pat rep : List Char) : List Char :=
  replaceAllFuel pat rep s.length [] s

/-- The literal text `{{key}}`. -/
def placeholderPat (key : String) : List Char :=
  lbrace :: lbrace :: (key.data ++ [rbrace, rbrace])

/-- The source's render loop:
`for (const [key, value] of Object.entries(variables)) rendered = rendered.replace(...)`,
applied in the order the variable bindings are given.  The source interpolates
the key unescaped into the regex; for keys made of `\w` characters (the only
keys a `{{token}}` placeholder can name, and the scope of the theorems below)
the compiled regex is this literal, group-free pattern. -/
def applyVars (content : List Char) (vars : List (String × String)) : List Char :=
  vars.foldl (fun acc kv => replaceAll acc (placeholderPat kv.1) kv.2.data) content

/-! ### PromptRegistry (src/templates/agentic/prompt-versioning.ts) -/

/-- A registered prompt version.  The source also stores `metadata`, `createdAt`
and `updatedAt`; no operation modelled here reads them, so they are omitted. -/
structure PromptVersion where
  version : String
  content : String
  declaredVars : List String
  deriving Repr, DecidableEq

/-- `PromptRegistry.prompts`: name → (version → PromptVersion). -/
def PromptRegistry : Type := List (String × List (String × PromptVersion))

/-- `PromptRegistry.get(name, version)`. -/
def regGet (reg : PromptRegistry) (name version : String) : Option PromptVersion :=
  match alGet name reg with
  | none => none
  | some versions => alGet version versions

/-- `PromptRegistry.register(name, version, content)`. -/
def regRegister (reg : PromptRegistry) (name version content : String) : PromptRegistry :=
  let versions := (alGet name reg).getD []
  let pv : PromptVersion :=
    { version := version, content := content, declaredVars := extractVars content.data }
  alSet name (alSet version pv versions) reg

/-- The two failure modes of `PromptRegistry.render` (thrown `Error`s in the
source, distinguished by their message). -/
inductive RenderError where
  | notFound
  | missingVariable
  deriving Repr, DecidableEq

/-- `PromptRegistry.render(name, version, variables)`: look the version up
(throwing `NotFound` on a miss), substitute each supplied variable in order,
then throw `MissingVariable` if any `{{token}}` is still present. -/
def regRender (reg : PromptRegistry) (name version : String)
    (vars : List (String × String)) : Except RenderError String :=
  match regGet reg name version with
  | none => .error .notFound
  | some p =>
      let rendered := applyVars p.content.data vars
      if hasPlaceholder rendered then .error .missingVariable
      else .ok (String.mk rendered)

/-! ### PromptExperiment (src/templates/agentic/prompt-versioning.ts) -/

structure ExperimentMetrics where
  impressions : Nat
  conversions : Nat
  conversionRate : ℚ
  avgLatencyMs : ℚ
  avgTokens : ℚ
  totalCost : ℚ
  deriving Repr, DecidableEq

structure Variant where
  version : String
  weight : ℚ
  deriving Repr, DecidableEq

structure ExperimentConfig where
  control : String
  variants : List Variant
  deriving Repr, DecidableEq

/-- The mutable fields of a `PromptExperiment` (its `registry` reference is
passed explicitly to the operations that consult it). -/
structure ExperimentState where
  name : String
  config : ExperimentConfig
  metrics : List (String × ExperimentMetrics)
  assignments : List (String × String)
  isActive : Bool
  deriving Repr, DecidableEq

def emptyMetrics : ExperimentMetrics :=
  { impressions := 0, conversions := 0, conversionRate := 0,
    avgLatencyMs := 0, avgTokens := 0, totalCost := 0 }

/-- The constructor: zeroed metrics for control and each variant. -/
def createExperimentState (name : String) (cfg : ExperimentConfig) : ExperimentState :=
  { name := name
    config := cfg
    metrics := cfg.variants.foldl (fun ms v => alSet v.version emptyMetrics ms)
      (alSet cfg.control emptyMetrics [])
    assignments := []
    isActive := true }

/-- `parseInt(md5(userId + name).substring(0, 8), 16) / 0xffffffff`.  The md5
digest itself is external library code, abstracted as `hashFn`; its 8-hex-digit
prefix is a value below 2^32, and the source divides it by 0xffffffff. -/
def hashVal (hashFn : String → Nat) (s : String) : ℚ :=
  ((hashFn s % 4294967296 : ℕ) : ℚ) / 4294967295

/-- The weight-accumulating walk in `assignVariant`: `cumulative += w;
if (hashNum < cumulative) return variant.version`, defaulting to control. -/
def pickVariant (h : ℚ) (control : String) : ℚ → List Variant → String
  | _, [] => control
  | cum, v :: vs =>
    if h < cum + v.weight then v.version else pickVariant h control (cum + v.weight) vs

/-- `PromptExperiment.assignVariant(userId)`: the cached assignment if present,
otherwise hash, walk the weights, and cache the choice. -/
def assignVariant (hashFn : String → Nat) (st : ExperimentState) (userId : String) :
    String × ExperimentState :=
  match alGet userId st.assignments with
  | some v => (v, st)
  | none =>
    let h := hashVal hashFn (userId ++ st.name)
    let version := pickVariant h st.config.control 0 st.config.variants
    (version, { st with assignments := alSet userId version st.assignments })

/-- `PromptExperiment.recordImpression(version)`: increment the version's
impression counter when the version has a metrics entry, else no-op. -/
def recordImpression (st : ExperimentState) (version : String) : ExperimentState :=
  match alGet version st.metrics with
  | none => st
  | some m =>
      { st with metrics := alSet version { m with impressions := m.impressions + 1 } st.metrics }

/-- The content expression of `getPrompt`:
`variables ? this.registry.render(name, version, variables) : this.registry.get(name, version)!.content`.
The source's non-null assertion would crash on an unregistered version; that
crash is modelled as a `notFound` error. -/
def fetchContent (reg : PromptRegistry) (name version : String)
    (vars : Option (List (String × String))) : Except RenderError String :=
  match vars with
  | some vs => regRender reg name version vs
  | none =>
    match regGet reg name version with
    | some p => .ok p.content
    | none => .error .notFound

/-- `PromptExperiment.getPrompt(userId, variables?)`.  When inactive, control is
returned without touching assignments or metrics.  When active, the variant is
assigned (mutating the assignment cache) before the content is rendered; a
render failure therefore keeps the assignment but skips the impression. -/
def getPrompt (hashFn : String → Nat) (reg : PromptRegistry) (st : ExperimentState)
    (userId : String) (vars : Option (List (String × String))) :
    Except RenderError (String × String) × ExperimentState :=
  if st.isActive = false then
    ((fetchContent reg st.name st.config.control vars).map fun c => (st.config.control, c), st)
  else
    match fetchContent reg st.name (assignVariant hashFn st userId).1 vars with
    | .error e => (.error e, (assignVariant hashFn st userId).2)
    | .ok c =>
      (.ok ((assignVariant hashFn st userId).1, c),
       recordImpression (assignVariant hashFn st userId).2 (assignVariant hashFn st userId).1)

/-- `PromptExperiment.graduate(version)`: control becomes the given version, the
variant list is cleared, and the experiment is deactivated. -/
def graduate (st : ExperimentState) (version : String) : ExperimentState :=
  { st with config := { control := version, variants := [] }, isActive := false }

/-- One step of `getWinner`'s loop: skip versions under 100 impressions, keep
the entry with the strictly higher conversion rate (ties keep the earlier). -/
def winnerStep (w : Option (String × ExperimentMetrics)) (p : String × ExperimentMetrics) :
    Option (String × ExperimentMetrics) :=
  if p.2.impressions < 100 then w
  else
    match w with
    | none => some p
    | some q => if q.2.conversionRate < p.2.conversionRate then some p else some q

/-- `PromptExperiment.getWinner()` — note: no parameter; the minimum sample
size is the hard-coded constant 100. -/
def getWinner (st : ExperimentState) : Option (String × ExperimentMetrics) :=
  st.metrics.foldl winnerStep none

/-- The pooled proportion `(p1·n1 + p2·n2)/(n1 + n2)` of `isSignificant`,
over ℝ (the source computes with JS floats). -/
noncomputable def pooledP (c v : ExperimentMetrics) : ℝ :=
  ((c.conversionRate : ℝ) * c.impressions + (v.conversionRate : ℝ) * v.impressions) /
    (c.impressions + v.impressions)

/-- The standard error `sqrt(p(1−p)(1/n1 + 1/n2))`. -/
noncomputable def seVal (c v : ExperimentMetrics) : ℝ :=
  Real.sqrt (pooledP c v * (1 - pooledP c v) * (1 / c.impressions + 1 / v.impressions))

/-- One control-vs-variant comparison declares significance: nonzero standard
error and `|p1 − p2| / SE > 1.96`.  (When the SE is zero the source `continue`s,
i.e. the comparison does not declare significance.) -/
def sigCmp (c v : ExperimentMetrics) : Prop :=
  seVal c v ≠ 0 ∧ 1.96 < |(c.conversionRate : ℝ) - (v.conversionRate : ℝ)| / seVal c v

/-- The variant loop of `isSignificant`: a variant with missing or insufficient
metrics returns false immediately; a significant comparison returns true;
otherwise the loop continues, and falls through to false. -/
def sigLoop (minImp : ℕ) (c : ExperimentMetrics) (lookup : String → Option ExperimentMetrics) :
    List Variant → Prop
  | [] => False
  | v :: vs =>
    match lookup v.version with
    | none => False
    | some m =>
      if m.impressions < minImp then False
      else sigCmp c m ∨ sigLoop minImp c lookup vs

/-- `PromptExperiment.isSignificant(minImpressions)` as a proposition (the
source returns a float-computed boolean). -/
def isSignificantP (minImp : ℕ) (st : ExperimentState) : Prop :=
  match alGet st.config.control st.metrics with
  | none => False
  | some c =>
    if c.impressions < minImp then False
    else sigLoop minImp c (fun ver => alGet ver st.metrics) st.config.variants

/-! ### CostTracker (src/templates/agentic/cost-tracking.ts) -/

/-- The `MODEL_PRICING` table: model → (input, output) USD per 1K tokens. -/
def MODEL_PRICING : List (String × (ℚ × ℚ)) :=
  [ ("gpt-4-turbo", (0.01, 0.03))
  , ("gpt-4-turbo-preview", (0.01, 0.03))
  , ("gpt-4", (0.03, 0.06))
  , ("gpt-4-32k", (0.06, 0.12))
  , ("gpt-3.5-turbo", (0.0005, 0.0015))
  , ("gpt-3.5-turbo-16k", (0.001, 0.002))
  , ("claude-3-opus-20240229", (0.015, 0.075))
  , ("claude-3-sonnet-20240229", (0.003, 0.015))
  , ("claude-3-haiku-20240307", (0.00025, 0.00125))
  , ("claude-3-5-sonnet-20240620", (0.003, 0.015))
  , ("gemini-pro", (0.00025, 0.0005))
  , ("gemini-pro-vision", (0.00025, 0.0005))
  , ("mistral-tiny", (0.00014, 0.00042))
  , ("mistral-small", (0.0006, 0.0018))
  , ("mistral-medium", (0.0027, 0.0081))
  , ("mistral-large", (0.008, 0.024)) ]

/-- `CostTracker.calculateCost(model, inputTokens, outputTokens)`: priced models
use their table entry; a miss warns and falls back to the `gpt-3.5-turbo`
rates.  (The `.getD (0, 0)` default is unreachable: that entry is present.) -/
def calculateCost (model : String) (inputTokens outputTokens : ℚ) : ℚ :=
  match alGet model MODEL_PRICING with
  | some pricing => (inputTokens * pricing.1 + outputTokens * pricing.2) / 1000
  | none =>
    let fallback := (alGet "gpt-3.5-turbo" MODEL_PRICING).getD (0, 0)
    (inputTokens * fallback.1 + outputTokens * fallback.2) / 1000

/-! ### BudgetManager alerting (src/templates/agentic/cost-tracking.ts)

`alertsSent` is a JS `Set<string>` of keys `` `${period}:${threshold}` ``; it is
modelled as a list of `(period, threshold)` pairs.  `resetAlerts(p)` uses
`key.startsWith(p)`; for the period names the engine uses ("daily", "weekly",
"monthly") prefix-matching the full key coincides with prefix-matching its
period component, which is how it is modelled here. -/

/-- `(used / limit) * 100`, the `percentUsed` of `checkPeriodBudget`. -/
def percentUsed (used limit : ℚ) : ℚ := used / limit * 100

/-- The loop body of `checkAndSendAlert` for one threshold `t`:
`if (status.percentUsed >= threshold * 100 && !alertsSent.has(key))` fire and
mark, else skip.  The accumulator is (alerts fired so far, sent-set). -/
def alertStep (period : String) (pct : ℚ) (acc : List ℚ × List (String × ℚ)) (t : ℚ) :
    List ℚ × List (String × ℚ) :=
  if t * 100 ≤ pct ∧ (period, t) ∉ acc.2 then (acc.1 ++ [t], acc.2 ++ [(period, t)])
  else acc

/-- `BudgetManager.checkAndSendAlert(period, status)`: walk the configured
thresholds in order; fire the callback and mark `(period, threshold)` sent when
`percentUsed` has reached `threshold × 100` and the pair is not yet marked.
Returns the list of thresholds fired (in order) and the updated sent-set. -/
def checkAndSendAlert (thresholds : List ℚ) (period : String) (pct : ℚ)
    (sent : List (String × ℚ)) : List ℚ × List (String × ℚ) :=
  thresholds.foldl (alertStep period pct) ([], sent)

/-- `BudgetManager.resetAlerts(period?)`: drop sent-markers whose key starts
with the given period string; with no argument, clear all.  (The prefix test is
on the key's character list.) -/
def resetAlerts (period : Option String) (sent : List (String × ℚ)) : List (String × ℚ) :=
  match period with
  | some p => sent.filter (fun kv => ! p.data.isPrefixOf kv.1.data)
  | none => []

/-! ### RateLimiter (src/templates/agentic/cost-tracking.ts) -/

structure RateLimits where
  requests : Nat
  windowMs : Nat
  deriving Repr, DecidableEq

/-- `RateLimiter.checkLimit(key)`: filter the key's timestamps to those strictly
inside the window (`t > now − windowMs`) — into a LOCAL variable; the stored map
is returned unchanged, exactly as in the source, which never writes the filtered
array back.  `remaining` is `Math.max(0, requests − count)` (truncated `Nat`
subtraction).  `timestamps[0] || now` treats a leading timestamp `0` as absent
(JS falsiness). -/
def checkLimit (lim : RateLimits) (reqs : List (String × List Int)) (key : String)
    (now : Int) : (Bool × Nat × Int) × List (String × List Int) :=
  let windowStart : Int := now - lim.windowMs
  let ts := ((alGet key reqs).getD []).filter (fun t => windowStart < t)
  let remaining : Nat := lim.requests - ts.length
  let oldest : Int :=
    match ts.head? with
    | some t => if t = 0 then now else t
    | none => now
  let resetInMs : Int := max 0 (oldest + lim.windowMs - now)
  ((decide (ts.length < lim.requests), remaining, resetInMs), reqs)

/-- `RateLimiter.recordRequest(key)`: append the current timestamp to the key's
stored list. -/
def recordRequest (reqs : List (String × List Int)) (key : String) (now : Int) :
    List (String × List Int) :=
  alSet key (((alGet key reqs).getD []) ++ [now]) reqs

/-! ### Spec-side definitions

These follow the specification's wording rather than the source, to be compared
against the source-derived definitions above. -/

/-- The version component of a successful `getPrompt` result. -/
def okVersion : Except RenderError (String × String) → Option String
  | .ok p => some p.1
  | .error _ => none

/-- Cumulative weights in declaration order, starting from `start`: each variant
paired with the sum of the weights up to and including it. -/
def cumulativeFrom (start : ℚ) : List Variant → List (String × ℚ)
  | [] => []
  | v :: vs => (v.version, start + v.weight) :: cumulativeFrom (start + v.weight) vs

/-- The spec's description of bucketing: walk variants in declaration order
accumulating weights; the first variant whose cumulative weight exceeds the
hash value wins; if none exceeds it, control wins. -/
def specChoice (h : ℚ) (control : String) (vs : List Variant) : String :=
  match (cumulativeFrom 0 vs).find? (fun p => decide (h < p.2)) with
  | some p => p.1
  | none => control

/-- Simultaneous substitution, the claim's reading of `render`: every
`{{token}}` placeholder of the template itself is replaced by its supplied
value (first binding for the token, substituted text not rescanned); tokens
without a supplied value are left in place.  Fuel-indexed like `replaceAllFuel`. -/
def substSimul (vars : List (String × String)) : Nat → List Char → List Char
  | 0, s => s
  | _ + 1, [] => []
  | n + 1, c :: rest =>
    match placeholderAt (c :: rest) with
    | some (w, r2) =>
      match alGet (String.mk w) vars with
      | some val => val.data ++ substSimul vars n r2
      | none => lbrace :: lbrace :: (w ++ [rbrace, rbrace]) ++ substSimul vars n r2
    | none => c :: substSimul vars n rest

/-- The template content with every placeholder replaced by its supplied
value — the success result the claim describes for `render`. -/
def renderSpec (content : String) (vars : List (String × String)) : String :=
  String.mk (substSimul vars content.data.length content.data)

/-- The claim's reading of `getWinner`: identical selection loop, but with the
minimum sample floor as a caller-supplied parameter instead of the source's
hard-coded 100. -/
def getWinnerWithFloor (minImp : Nat) (st : ExperimentState) :
    Option (String × ExperimentMetrics) :=
  st.metrics.foldl
    (fun w p =>
      if p.2.impressions < minImp then w
      else
        match w with
        | none => some p
        | some q => if q.2.conversionRate < p.2.conversionRate then some p else some q)
    none

/-! ### Concrete fixtures for witnesses and counterexamples -/

/-- A registry with one prompt, one version, one `{{name}}` variable. -/
def greetReg : PromptRegistry := regRegister [] "greet" "v1" "Hello \x7b\x7bname\x7d\x7d!"

/-- A registry whose template's variable value itself contains placeholder
syntax, exposing the sequential-replacement semantics of `render`. -/
def cascadeReg : PromptRegistry := regRegister [] "n" "v1" "\x7b\x7ba\x7d\x7d"

/-- A fresh no-variant experiment over `greetReg` (control is everything). -/
def greetExp : ExperimentState :=
  createExperimentState "greet" { control := "v1", variants := [] }

/-- A hash function for fixtures (the choice is irrelevant to the statements
it is used in). -/
def hashZero : String → Nat := fun _ => 0

/-- A hash standing for an md5 digest whose first 8 hex digits are `ffffffff`:
the largest value the source's `parseInt(hash.substring(0, 8), 16)` can take. -/
def hashMax : String → Nat := fun _ => 4294967295

/-- An active experiment whose single variant carries the full weight 1.0. -/
def fullWeightExp : ExperimentState :=
  { name := "e", config := { control := "c", variants := [{ version := "v", weight := 1 }] },
    metrics := [], assignments := [], isActive := true }

/-- `greetExp` after caller "u" has been assigned to control "v1". -/
def assignedExp : ExperimentState := { greetExp with assignments := [("u", "v1")] }

/-- A config edit made after "u"'s first resolution: all the weight moved to a
new variant "v2". -/
def cfgX : ExperimentConfig := { control := "v1", variants := [{ version := "v2", weight := 1 }] }

/-- 150 impressions, zero conversions: over `getWinner`'s hard floor of 100,
under the claim's caller-supplied floor of 1000. -/
def metrics150 : ExperimentMetrics :=
  { impressions := 150, conversions := 0, conversionRate := 0,
    avgLatencyMs := 0, avgTokens := 0, totalCost := 0 }

def winnerSt : ExperimentState :=
  { name := "e", config := { control := "v1", variants := [] },
    metrics := [("v1", metrics150)], assignments := [], isActive := true }

/-- A two-entry experiment state for the significance-symmetry claim: control
metrics `a`, single variant metrics `b`. -/
def sigSt (a b : ExperimentMetrics) : ExperimentState :=
  { name := "e", config := { control := "c", variants := [{ version := "v", weight := 1/2 }] },
    metrics := [("c", a), ("v", b)], assignments := [], isActive := true }

/-! ## Lemmas -/

theorem alGet_alSet_self {α : Type} (k : String) (v : α) :
    ∀ l : List (String × α), alGet k (alSet k v l) = some v := by
  intro l
  induction l with
  | nil => simp [alGet, alSet]
  | cons p rest ih =>
      by_cases h : p.1 = k
      · simp [alGet, alSet, h]
      · simp [alGet, alSet, h, ih]

theorem assignVariant_cached (f : String → Nat) (st : ExperimentState) (u v : String)
    (h : alGet u st.assignments = some v) : assignVariant f st u = (v, st) := by
  simp [assignVariant, h]

/-- After `assignVariant`, the caller's cache entry is the returned version. -/
theorem assignVariant_assigned (f : String → Nat) (st : ExperimentState) (u : String) :
    alGet u (assignVariant f st u).2.assignments = some (assignVariant f st u).1 := by
  unfold assignVariant
  cases h : alGet u st.assignments with
  | some v => simp [h]
  | none => simp [h, alGet_alSet_self]

/-- `assignVariant` touches only the assignment cache. -/
theorem assignVariant_fields (f : String → Nat) (st : ExperimentState) (u : String) :
    (assignVariant f st u).2.name = st.name ∧
    (assignVariant f st u).2.config = st.config ∧
    (assignVariant f st u).2.metrics = st.metrics ∧
    (assignVariant f st u).2.isActive = st.isActive := by
  unfold assignVariant
  cases h : alGet u st.assignments <;> simp [h]

/-- `recordImpression` touches only the metrics map. -/
theorem recordImpression_fields (st : ExperimentState) (v : String) :
    (recordImpression st v).name = st.name ∧
    (recordImpression st v).config = st.config ∧
    (recordImpression st v).assignments = st.assignments ∧
    (recordImpression st v).isActive = st.isActive := by
  unfold recordImpression
  cases h : alGet v st.metrics <;> simp [h]

/-- The shared core of the determinism claims: on an active experiment with a
cached assignment, `getPrompt` returns the cached version on success, leaves
the assignment cache untouched, and keeps the experiment active — under any
experiment config, so weight edits after first resolution are irrelevant. -/
theorem getPrompt_cached (f : String → Nat) (reg : PromptRegistry) (st : ExperimentState)
    (u v : String) (vars : Option (List (String × String)))
    (hact : st.isActive = true) (hv : alGet u st.assignments = some v) :
    (okVersion (getPrompt f reg st u vars).1 = none ∨
      okVersion (getPrompt f reg st u vars).1 = some v) ∧
    (getPrompt f reg st u vars).2.assignments = st.assignments ∧
    (getPrompt f reg st u vars).2.isActive = true ∧
    (getPrompt f reg st u vars).2.name = st.name := by
  have hpick : assignVariant f st u = (v, st) := assignVariant_cached f st u v hv
  unfold getPrompt
  rw [hpick]
  cases hf : fetchContent reg st.name v vars with
  | error e => simp [hact, hf, okVersion]
  | ok c =>
      simp [hact, hf, okVersion, (recordImpression_fields st v).2.2.1,
        (recordImpression_fields st v).2.2.2, (recordImpression_fields st v).1]

/-- On a stopped or graduated experiment, `getPrompt` serves control and leaves
the state untouched. -/
theorem getPrompt_inactive (f : String → Nat) (reg : PromptRegistry) (st : ExperimentState)
    (u : String) (vars : Option (List (String × String))) (h : st.isActive = false) :
    getPrompt f reg st u vars =
      ((fetchContent reg st.name st.config.control vars).map fun c => (st.config.control, c),
       st) := by
  unfold getPrompt
  rw [if_pos h]

/-- The source's accumulate-and-compare walk equals the spec's description via
explicit cumulative weights. -/
theorem pickVariant_eq (h : ℚ) (control : String) :
    ∀ (vs : List Variant) (cum : ℚ),
      pickVariant h control cum vs =
        (match (cumulativeFrom cum vs).find? (fun p => decide (h < p.2)) with
         | some p => p.1
         | none => control) := by
  intro vs
  induction vs with
  | nil => intro cum; simp [pickVariant, cumulativeFrom]
  | cons v rest ih =>
      intro cum
      by_cases hc : h < cum + v.weight
      · simp [pickVariant, cumulativeFrom, hc, List.find?]
      · simp [pickVariant, cumulativeFrom, hc, List.find?, ih]

theorem hashVal_nonneg (f : String → Nat) (s : String) : 0 ≤ hashVal f s := by
  unfold hashVal
  positivity

theorem hashVal_le_one (f : String → Nat) (s : String) : hashVal f s ≤ 1 := by
  unfold hashVal
  rw [div_le_one (by norm_num)]
  have hlt : f s % 4294967296 ≤ 4294967295 := by
    have := Nat.mod_lt (f s) (y := 4294967296) (by norm_num)
    omega
  exact_mod_cast hlt

/-- A version with enough impressions can never leave the winner slot empty. -/
theorem winnerStep_ne_none (acc : Option (String × ExperimentMetrics))
    (p : String × ExperimentMetrics) (hq : ¬ p.2.impressions < 100) :
    winnerStep acc p ≠ none := by
  cases acc with
  | none => simp [winnerStep, hq]
  | some q =>
      by_cases hlt : q.2.conversionRate < p.2.conversionRate <;> simp [winnerStep, hq, hlt]

theorem winnerFold_none :
    ∀ (l : List (String × ExperimentMetrics)) (acc : Option (String × ExperimentMetrics)),
      (l.foldl winnerStep acc = none ↔ acc = none ∧ ∀ p ∈ l, p.2.impressions < 100) := by
  intro l
  induction l with
  | nil => intro acc; simp
  | cons p rest ih =>
      intro acc
      by_cases hq : p.2.impressions < 100
      · rw [List.foldl_cons]
        have hstep : winnerStep acc p = acc := by simp [winnerStep, hq]
        rw [hstep, ih]
        simp only [List.mem_cons]
        constructor
        · rintro ⟨h1, h2⟩
          exact ⟨h1, fun q hq2 => hq2.elim (fun he => he ▸ hq) (h2 q)⟩
        · rintro ⟨h1, h2⟩
          exact ⟨h1, fun q hq2 => h2 q (Or.inr hq2)⟩
      · rw [List.foldl_cons, ih]
        constructor
        · rintro ⟨h1, _⟩
          exact absurd h1 (winnerStep_ne_none acc p hq)
        · rintro ⟨_, h2⟩
          exact absurd (h2 p (List.mem_cons_self p rest)) hq

theorem winnerFold_max :
    ∀ (l : List (String × ExperimentMetrics)) (acc : Option (String × ExperimentMetrics))
      (q : String × ExperimentMetrics),
      l.foldl winnerStep acc = some q →
      (∀ p ∈ l, ¬ p.2.impressions < 100 → p.2.conversionRate ≤ q.2.conversionRate) ∧
      (∀ a, acc = some a → a.2.conversionRate ≤ q.2.conversionRate) ∧
      (acc = some q ∨ (q ∈ l ∧ ¬ q.2.impressions < 100)) := by
  intro l
  induction l with
  | nil =>
      intro acc q hfold
      simp only [List.foldl_nil] at hfold
      refine ⟨by simp, ?_, Or.inl hfold⟩
      intro a ha
      rw [hfold] at ha
      injection ha with h2
      exact h2 ▸ le_refl _
  | cons p rest ih =>
      intro acc q hfold
      rw [List.foldl_cons] at hfold
      obtain ⟨hrest, haccstep, hthird⟩ := ih (winnerStep acc p) q hfold
      by_cases hq : p.2.impressions < 100
      · have hstep : winnerStep acc p = acc := by simp [winnerStep, hq]
        rw [hstep] at haccstep hthird
        refine ⟨?_, haccstep, ?_⟩
        · intro r hr hrq
          rcases List.mem_cons.mp hr with he | hm
          · exact absurd (he ▸ hq) hrq
          · exact hrest r hm hrq
        · rcases hthird with h | ⟨hm, hbig⟩
          · exact Or.inl h
          · exact Or.inr ⟨List.mem_cons_of_mem p hm, hbig⟩
      · have hple : p.2.conversionRate ≤ q.2.conversionRate := by
          cases hacc : acc with
          | none =>
              have : winnerStep acc p = some p := by simp [winnerStep, hq, hacc]
              exact haccstep p this
          | some a =>
              by_cases hlt : a.2.conversionRate < p.2.conversionRate
              · have : winnerStep acc p = some p := by simp [winnerStep, hq, hacc, hlt]
                exact haccstep p this
              · have : winnerStep acc p = some a := by simp [winnerStep, hq, hacc, hlt]
                exact le_trans (le_of_not_lt hlt) (haccstep a this)
        refine ⟨?_, ?_, ?_⟩
        · intro r hr hrq
          rcases List.mem_cons.mp hr with he | hm
          · exact he ▸ hple
          · exact hrest r hm hrq
        · intro a ha
          by_cases hlt : a.2.conversionRate < p.2.conversionRate
          · exact le_trans (le_of_lt hlt) hple
          · have : winnerStep acc p = some a := by simp [winnerStep, hq, ha, hlt]
            exact haccstep a this
        · rcases hthird with h | ⟨hm, hbig⟩
          · cases hacc : acc with
            | none =>
                have : winnerStep acc p = some p := by simp [winnerStep, hq, hacc]
                rw [this] at h
                have hqp : q = p := by cases h; rfl
                exact Or.inr ⟨hqp ▸ List.mem_cons_self p rest, hqp ▸ hq⟩
            | some a =>
                by_cases hlt : a.2.conversionRate < p.2.conversionRate
                · have : winnerStep acc p = some p := by simp [winnerStep, hq, hacc, hlt]
                  rw [this] at h
                  have hqp : q = p := by cases h; rfl
                  exact Or.inr ⟨hqp ▸ List.mem_cons_self p rest, hqp ▸ hq⟩
                · have : winnerStep acc p = some a := by simp [winnerStep, hq, hacc, hlt]
                  rw [this] at h
                  have hqa : a = q := by cases h; rfl
                  exact Or.inl (by rw [hqa])
          · exact Or.inr ⟨List.mem_cons_of_mem p hm, hbig⟩

/-- A `(period, threshold)` pair already in the sent-set never fires. -/
theorem alertFold_no_refire (period : String) (pct t : ℚ) :
    ∀ (ths : List ℚ) (acc : List ℚ × List (String × ℚ)),
      (period, t) ∈ acc.2 → t ∉ acc.1 →
      t ∉ (ths.foldl (alertStep period pct) acc).1 := by
  intro ths
  induction ths with
  | nil => intro acc hmem hnot; simpa using hnot
  | cons t' rest ih =>
      intro acc hmem hnot
      rw [List.foldl_cons]
      by_cases hfire : t' * 100 ≤ pct ∧ (period, t') ∉ acc.2
      · have hne : t' ≠ t := by
          intro he
          exact hfire.2 (he ▸ hmem)
        have hstep : alertStep period pct acc t' = (acc.1 ++ [t'], acc.2 ++ [(period, t')]) := by
          simp [alertStep, hfire]
        rw [hstep]
        refine ih _ (by simp [hmem]) ?_
        simp only [List.mem_append, List.mem_singleton]
        rintro (h | h)
        · exact hnot h
        · exact hne h.symm
      · have hstep : alertStep period pct acc t' = acc := by simp [alertStep]; tauto
        rw [hstep]
        exact ih acc hmem hnot

theorem pooledP_comm (a b : ExperimentMetrics) : pooledP a b = pooledP b a := by
  unfold pooledP
  rw [add_comm ((a.conversionRate : ℝ) * a.impressions) _,
    add_comm (a.impressions : ℝ) _]

theorem seVal_comm (a b : ExperimentMetrics) : seVal a b = seVal b a := by
  unfold seVal
  rw [pooledP_comm]
  congr 1
  ring

theorem sigCmp_comm (a b : ExperimentMetrics) : sigCmp a b ↔ sigCmp b a := by
  unfold sigCmp
  rw [seVal_comm, abs_sub_comm]

/-- The two-entry experiment state decodes `isSignificant` into the sample
gates plus the single comparison. -/
theorem isSignificantP_sigSt (m : ℕ) (a b : ExperimentMetrics) :
    isSignificantP m (sigSt a b) ↔
      m ≤ a.impressions ∧ m ≤ b.impressions ∧ sigCmp a b := by
  have hdecode : isSignificantP m (sigSt a b) =
      if a.impressions < m then False
      else if b.impressions < m then False
      else (sigCmp a b ∨ False) := by
    simp [isSignificantP, sigSt, sigLoop, alGet]
  rw [hdecode]
  split_ifs with h1 h2
  · simp only [false_iff]
    rintro ⟨ha, -, -⟩
    omega
  · simp only [false_iff]
    rintro ⟨-, hb, -⟩
    omega
  · simp only [or_false]
    exact ⟨fun h => ⟨Nat.not_lt.mp h1, Nat.not_lt.mp h2, h⟩, fun h => h.2.2⟩

/-! ## Claim theorems -/

/-- C1: on an active experiment, once a caller's assignment is cached, every
further `getPrompt` — under any experiment config whatsoever, hence regardless
of weight changes made after first resolution — returns the cached version
whenever it returns one at all, and leaves the cache entry, the active flag and
the experiment name intact, so the same holds across any number of further
invocations: the cached Assignment, not a re-derivation, is authoritative. -/
theorem claim_C1_determinism (f : String → Nat) (reg : PromptRegistry)
    (st : ExperimentState) (u v : String) (cfg : ExperimentConfig)
    (vars : Option (List (String × String)))
    (hact : st.isActive = true) (hv : alGet u st.assignments = some v) :
    (okVersion (getPrompt f reg { st with config := cfg } u vars).1 = none ∨
      okVersion (getPrompt f reg { st with config := cfg } u vars).1 = some v) ∧
    (getPrompt f reg { st with config := cfg } u vars).2.assignments = st.assignments ∧
    (getPrompt f reg { st with config := cfg } u vars).2.isActive = true ∧
    (getPrompt f reg { st with config := cfg } u vars).2.name = st.name :=
  getPrompt_cached f reg { st with config := cfg } u v vars hact hv

/-- C1 witness: caller "u" is cached on "v1"; after moving all weight to a new
variant ("cfgX"), `getPrompt` still serves "v1" and preserves the cache. -/
theorem claim_C1_witness :
    (okVersion (getPrompt hashZero greetReg { assignedExp with config := cfgX } "u" none).1 =
        none ∨
      okVersion (getPrompt hashZero greetReg { assignedExp with config := cfgX } "u" none).1 =
        some "v1") ∧
    (getPrompt hashZero greetReg { assignedExp with config := cfgX } "u" none).2.assignments =
      assignedExp.assignments ∧
    (getPrompt hashZero greetReg { assignedExp with config := cfgX } "u" none).2.isActive =
      true ∧
    (getPrompt hashZero greetReg { assignedExp with config := cfgX } "u" none).2.name =
      assignedExp.name :=
  claim_C1_determinism hashZero greetReg assignedExp "u" "v1" cfgX none rfl rfl

/-- C2 counterexample: the source divides the 32-bit hash prefix by
`0xffffffff`, so a prefix of `ffffffff` hashes to exactly 1 — outside the
claimed [0,1) — and such a caller falls through to control even though the
single variant carries the full weight 1.0. -/
theorem claim_C2_hash_cex :
    hashVal hashMax ("u" ++ fullWeightExp.name) = 1 ∧
    ¬ hashVal hashMax ("u" ++ fullWeightExp.name) < 1 ∧
    (assignVariant hashMax fullWeightExp "u").1 = "c" := by
  have h1 : hashVal hashMax ("u" ++ fullWeightExp.name) = 1 := by
    norm_num [hashVal, hashMax]
  refine ⟨h1, by rw [h1]; exact lt_irrefl 1, ?_⟩
  have h2 : alGet "u" fullWeightExp.assignments = none := rfl
  simp only [assignVariant, h2]
  rw [h1]
  norm_num [fullWeightExp, pickVariant]

/-- C2 (amended): a caller's first resolution in an active experiment hashes
`callerId + experimentName` to a number in [0, 1] — the endpoint 1 is reached
exactly when the digest's 8-hex-digit prefix is `ffffffff` (the md5 digest
itself is external library code, abstracted here) — walks the variants in
declaration order accumulating weights, picks the first variant whose
cumulative weight exceeds the hash value — control if none does, including
the hash-equals-1 case under total weight 1 — and caches exactly that
choice. -/
theorem claim_C2_bucketing (f : String → Nat) (st : ExperimentState) (u : String)
    (_hact : st.isActive = true) (hnone : alGet u st.assignments = none) :
    0 ≤ hashVal f (u ++ st.name) ∧ hashVal f (u ++ st.name) ≤ 1 ∧
    (assignVariant f st u).1 =
      specChoice (hashVal f (u ++ st.name)) st.config.control st.config.variants ∧
    (assignVariant f st u).2 =
      { st with assignments := alSet u (assignVariant f st u).1 st.assignments } := by
  refine ⟨hashVal_nonneg f _, hashVal_le_one f _, ?_, ?_⟩
  · simp only [assignVariant, hnone, specChoice, pickVariant_eq]
  · simp only [assignVariant, hnone]

/-- C2 witness at a concrete fresh caller. -/
theorem claim_C2_witness :
    0 ≤ hashVal hashZero ("u" ++ greetExp.name) ∧
    hashVal hashZero ("u" ++ greetExp.name) ≤ 1 ∧
    (assignVariant hashZero greetExp "u").1 =
      specChoice (hashVal hashZero ("u" ++ greetExp.name)) greetExp.config.control
        greetExp.config.variants ∧
    (assignVariant hashZero greetExp "u").2 =
      { greetExp with
        assignments := alSet "u" (assignVariant hashZero greetExp "u").1 greetExp.assignments } :=
  claim_C2_bucketing hashZero greetExp "u" rfl rfl

/-- C3: after `graduate v`, `getPrompt` for every caller — whatever they were
assigned before — returns version `v` whenever it returns a version at all,
never mutates the state again, and, when `v` is registered, returns `v` with
its content outright. -/
theorem claim_C3_graduation (f : String → Nat) (reg : PromptRegistry)
    (st : ExperimentState) (v u : String) (vars : Option (List (String × String))) :
    (okVersion (getPrompt f reg (graduate st v) u vars).1 = none ∨
      okVersion (getPrompt f reg (graduate st v) u vars).1 = some v) ∧
    (getPrompt f reg (graduate st v) u vars).2 = graduate st v ∧
    (∀ p, regGet reg st.name v = some p →
      getPrompt f reg (graduate st v) u none = (.ok (v, p.content), graduate st v)) := by
  refine ⟨?_, ?_, ?_⟩
  · rw [getPrompt_inactive f reg (graduate st v) u vars rfl]
    cases hf : fetchContent reg (graduate st v).name (graduate st v).config.control vars with
    | error e => simp [hf, okVersion, Except.map]
    | ok c => simp [hf, okVersion, Except.map]; rfl
  · rw [getPrompt_inactive f reg (graduate st v) u vars rfl]
  · intro p hp
    rw [getPrompt_inactive f reg (graduate st v) u none rfl]
    have hfc : fetchContent reg (graduate st v).name (graduate st v).config.control none =
        .ok p.content := by
      show fetchContent reg st.name v none = .ok p.content
      simp [fetchContent, hp]
    rw [hfc]
    rfl

/-- C3 witness: graduation of the concrete experiment to "v1". -/
theorem claim_C3_witness :
    getPrompt hashZero greetReg (graduate greetExp "v1") "anyone" none =
      (.ok ("v1", "Hello \x7b\x7bname\x7d\x7d!"), graduate greetExp "v1") :=
  (claim_C3_graduation hashZero greetReg greetExp "v1" "anyone" none).2.2
    { version := "v1", content := "Hello \x7b\x7bname\x7d\x7d!", declaredVars := ["name"] } rfl

/-- C4: `calculateCost('gpt-4', 1000, 500)` is 0.06, and in general a priced
model costs `inputTokens/1000 × inputPrice + outputTokens/1000 × outputPrice`
while an unpriced model is billed at the gpt-3.5-turbo fallback rates instead
of failing. -/
theorem claim_C4_cost :
    calculateCost "gpt-4" 1000 500 = 0.06 ∧
    ∀ (model : String) (i o : ℚ),
      calculateCost model i o =
        match alGet model MODEL_PRICING with
        | some pricing => i / 1000 * pricing.1 + o / 1000 * pricing.2
        | none => calculateCost "gpt-3.5-turbo" i o := by
  have h4 : alGet "gpt-4" MODEL_PRICING = some (0.03, 0.06) := rfl
  have h35 : alGet "gpt-3.5-turbo" MODEL_PRICING = some (0.0005, 0.0015) := rfl
  constructor
  · simp only [calculateCost, h4]
    norm_num
  · intro model i o
    cases hm : alGet model MODEL_PRICING with
    | some pricing =>
        simp only [calculateCost, hm]
        ring
    | none =>
        simp only [calculateCost, hm, h35, Option.getD_some]

/-- C5: with thresholds [0.5, 0.8, 1.0] and a $100 daily limit, a check at $55
fires exactly the 0.5 alert; a later check at $85 fires exactly the 0.8 alert;
an already-sent (period, threshold) pair never fires again; after
`resetAlerts('daily')` a check at $55 fires the 0.5 alert again. -/
theorem claim_C5_alert_dedup :
    checkAndSendAlert [0.5, 0.8, 1] "daily" (percentUsed 55 100) [] =
      ([0.5], [("daily", 0.5)]) ∧
    checkAndSendAlert [0.5, 0.8, 1] "daily" (percentUsed 85 100) [("daily", 0.5)] =
      ([0.8], [("daily", 0.5), ("daily", 0.8)]) ∧
    (∀ (thresholds : List ℚ) (period : String) (pct t : ℚ) (sent : List (String × ℚ)),
      (period, t) ∈ sent → t ∉ (checkAndSendAlert thresholds period pct sent).1) ∧
    resetAlerts (some "daily") [("daily", 0.5), ("daily", 0.8)] = [] ∧
    checkAndSendAlert [0.5, 0.8, 1] "daily" (percentUsed 55 100)
      (resetAlerts (some "daily") [("daily", 0.5), ("daily", 0.8)]) =
      ([0.5], [("daily", 0.5)]) := by
  refine ⟨?_, ?_, ?_, ?_, ?_⟩
  · norm_num [checkAndSendAlert, alertStep, percentUsed]
  · norm_num [checkAndSendAlert, alertStep, percentUsed]
  · intro ths period pct t sent hmem
    exact alertFold_no_refire period pct t ths ([], sent) hmem (by simp)
  · rfl
  · have hreset : resetAlerts (some "daily") [("daily", 0.5), ("daily", 0.8)] = [] := rfl
    rw [hreset]
    norm_num [checkAndSendAlert, alertStep, percentUsed]

/-- C5 witness: a pair already marked sent does not fire. -/
theorem claim_C5_witness :
    (0.5 : ℚ) ∉ (checkAndSendAlert [0.5] "daily" 200 [("daily", 0.5)]).1 :=
  claim_C5_alert_dedup.2.2.1 [0.5] "daily" 200 0.5 [("daily", 0.5)]
    (List.mem_singleton.mpr rfl)

/-- C6 counterexample: with template `{{a}}` and variables a ↦ `{{b}}`, b ↦ "X",
`render` succeeds with "X", whereas the template content with its (only)
placeholder replaced by its supplied value is `{{b}}` — the sequential
replacement rescans substituted values, so the claim's success description
fails. -/
theorem claim_C6_render_cex :
    regRender cascadeReg "n" "v1" [("a", "\x7b\x7bb\x7d\x7d"), ("b", "X")] = .ok "X" ∧
    renderSpec "\x7b\x7ba\x7d\x7d" [("a", "\x7b\x7bb\x7d\x7d"), ("b", "X")] =
      "\x7b\x7bb\x7d\x7d" ∧
    ("X" : String) ≠ "\x7b\x7bb\x7d\x7d" ∧
    (regGet cascadeReg "n" "v1").map PromptVersion.content = some "\x7b\x7ba\x7d\x7d" :=
  ⟨rfl, rfl, by decide, rfl⟩

/-- C6 (amended): for variables whose keys are `\w` identifiers (the only keys
a placeholder can name; the source interpolates the key unescaped into a
regex, which for such keys is this literal pattern), `render` fails with
`NotFound` iff the (name, version) pair is unregistered; otherwise it
substitutes the supplied variables sequentially, in the order given — each
replacing all current occurrences of its `{{key}}` with the value expanded
under the JS `$`-patterns (`$$`, `$&`, `` $` ``, `$'`), so substituted text is
itself subject to later replacements and to the final check — fails with
`MissingVariable` iff some `{{token}}` remains after that pass, and otherwise
returns the sequentially substituted content. -/
theorem claim_C6_render_amended (reg : PromptRegistry) (n v : String)
    (vars : List (String × String))
    (_hkeys : ∀ kv ∈ vars, ∀ c ∈ kv.1.data, isWordChar c = true) :
    (regRender reg n v vars = .error .notFound ↔ regGet reg n v = none) ∧
    (regRender reg n v vars = .error .missingVariable ↔
      ∃ p, regGet reg n v = some p ∧
        hasPlaceholder (applyVars p.content.data vars) = true) ∧
    (∀ s, regRender reg n v vars = .ok s ↔
      ∃ p, regGet reg n v = some p ∧
        hasPlaceholder (applyVars p.content.data vars) = false ∧
        s = String.mk (applyVars p.content.data vars)) := by
  cases hg : regGet reg n v with
  | none => simp [regRender, hg]
  | some p =>
      have hr : regRender reg n v vars =
          if hasPlaceholder (applyVars p.content.data vars) then .error .missingVariable
          else .ok (String.mk (applyVars p.content.data vars)) := by
        simp [regRender, hg]
      cases hp : hasPlaceholder (applyVars p.content.data vars) with
      | true =>
          rw [hp] at hr
          simp only [if_true] at hr
          refine ⟨by simp [hr], by simp [hr, hp], ?_⟩
          intro s
          simp [hr, hp]
      | false =>
          rw [hp] at hr
          simp only [Bool.false_eq_true, if_false] at hr
          refine ⟨by simp [hr], by simp [hr, hp], ?_⟩
          intro s
          constructor
          · intro h
            rw [hr] at h
            injection h with h2
            exact ⟨p, rfl, hp, h2.symm⟩
          · rintro ⟨p2, hp2, -, hs⟩
            injection hp2 with h3
            rw [hr, hs, h3]

/-- C6 witness: the `$&` replacement pattern re-inserts the matched `{{a}}`,
so the placeholder survives substitution and `render` throws
`MissingVariable` — matching the source's `GetSubstitution` behavior. -/
theorem claim_C6_render_witness :
    regRender cascadeReg "n" "v1" [("a", "$&")] = .error .missingVariable :=
  (claim_C6_render_amended cascadeReg "n" "v1" [("a", "$&")] (by decide)).2.1.mpr
    ⟨{ version := "v1", content := "\x7b\x7ba\x7d\x7d", declaredVars := ["a"] }, rfl, rfl⟩

/-- C7 counterexample: a version with 150 impressions is returned by the
source's `getWinner`, although under the claim's caller-supplied floor of 1000
no version qualifies (`getWinner` takes no such argument; its floor is the
hard-coded 100). -/
theorem claim_C7_winner_cex :
    getWinner winnerSt = some ("v1", metrics150) ∧
    getWinnerWithFloor 1000 winnerSt = none ∧
    metrics150.impressions < 1000 :=
  ⟨rfl, rfl, by decide⟩

/-- C7 (amended): `getWinner()` takes no minimum-impressions argument; it
returns none iff every version is under the hard-coded floor of 100
impressions, and otherwise returns a version meeting that floor whose
conversion rate is maximal among the versions meeting it. -/
theorem claim_C7_winner_amended (st : ExperimentState) :
    (getWinner st = none ↔ ∀ p ∈ st.metrics, p.2.impressions < 100) ∧
    ∀ q, getWinner st = some q →
      q ∈ st.metrics ∧ 100 ≤ q.2.impressions ∧
      ∀ p ∈ st.metrics, 100 ≤ p.2.impressions →
        p.2.conversionRate ≤ q.2.conversionRate := by
  constructor
  · exact (winnerFold_none st.metrics none).trans (by simp)
  · intro q hq
    obtain ⟨hmax, -, hthird⟩ := winnerFold_max st.metrics none q hq
    rcases hthird with h | ⟨hm, hbig⟩
    · exact Option.noConfusion h
    · exact ⟨hm, Nat.not_lt.mp hbig, fun p hp hple => hmax p hp (by omega)⟩

/-- C7 witness: the amended characterization applied to the concrete state. -/
theorem claim_C7_winner_witness :
    ("v1", metrics150) ∈ winnerSt.metrics ∧ 100 ≤ metrics150.impressions :=
  let h := (claim_C7_winner_amended winnerSt).2 ("v1", metrics150) rfl
  ⟨h.1, h.2.1⟩

/-- C8: for a single control-versus-variant comparison, `isSignificant` gives
the same verdict when the two groups' metrics are exchanged: the pooled
proportion, the standard error and |p1 − p2| are symmetric in the groups, as
are the minimum-sample gates. -/
theorem claim_C8_significance_symmetry (m : ℕ) (a b : ExperimentMetrics) :
    isSignificantP m (sigSt a b) ↔ isSignificantP m (sigSt b a) := by
  rw [isSignificantP_sigSt, isSignificantP_sigSt, sigCmp_comm]
  tauto

/-- C9 counterexample: with window 10ms and stored timestamp 0, a check at
t = 100 leaves the stored sequence exactly as it was — still containing 0,
which is outside the window (0 ≤ 100 − 10) — so `checkLimit` does not evict
from the stored state. -/
theorem claim_C9_rate_window_cex :
    alGet "k" (checkLimit ⟨3, 10⟩ [("k", [0])] "k" 100).2 = some [0] ∧
    ¬ ((100 : Int) - 10 < 0) :=
  ⟨rfl, by decide⟩

/-- C9 (amended): `checkLimit` evicts out-of-window timestamps only from a
local copy used for the admission decision — allowed iff the number of stored
timestamps strictly inside the window is below the ceiling — while the stored
state itself is returned unchanged; pruning never happens there. -/
theorem claim_C9_rate_window_amended (lim : RateLimits) (reqs : List (String × List Int))
    (key : String) (now : Int) :
    (checkLimit lim reqs key now).2 = reqs ∧
    ((checkLimit lim reqs key now).1.1 = true ↔
      ((alGet key reqs).getD []).countP
          (fun t => decide (now - (lim.windowMs : Int) < t)) < lim.requests) := by
  constructor
  · rfl
  · unfold checkLimit
    simp [List.countP_eq_length_filter]

/-- C10: when `getPrompt` throws at render time on an active experiment, the
caller's assignment has nevertheless been created and cached, no impression is
recorded (metrics unchanged), and a later `getPrompt` for the same caller
returns the version chosen during the failed call. -/
theorem claim_C10_failed_render (f : String → Nat) (reg : PromptRegistry)
    (st : ExperimentState) (u : String) (vs : List (String × String))
    (e : RenderError) (st' : ExperimentState)
    (hact : st.isActive = true)
    (herr : getPrompt f reg st u (some vs) = (.error e, st')) :
    alGet u st'.assignments = some (assignVariant f st u).1 ∧
    st'.metrics = st.metrics ∧
    st'.isActive = true ∧
    ∀ vars2, okVersion (getPrompt f reg st' u vars2).1 = none ∨
      okVersion (getPrompt f reg st' u vars2).1 = some (assignVariant f st u).1 := by
  have hstate : st' = (assignVariant f st u).2 := by
    unfold getPrompt at herr
    rw [if_neg (by simp [hact])] at herr
    cases hf : fetchContent reg st.name (assignVariant f st u).1 (some vs) with
    | error e2 =>
        rw [hf] at herr
        cases herr
        rfl
    | ok c =>
        rw [hf] at herr
        simp at herr
  subst hstate
  have hfields := assignVariant_fields f st u
  have hactive : (assignVariant f st u).2.isActive = true := by rw [hfields.2.2.2, hact]
  refine ⟨assignVariant_assigned f st u, hfields.2.2.1, hactive, ?_⟩
  intro vars2
  exact (getPrompt_cached f reg (assignVariant f st u).2 u (assignVariant f st u).1 vars2
    hactive (assignVariant_assigned f st u)).1

/-- C10 witness: a failed render on the concrete experiment has cached the
assignment and left the metrics untouched. -/
theorem claim_C10_witness :
    alGet "u" assignedExp.assignments = some (assignVariant hashZero greetExp "u").1 ∧
    assignedExp.metrics = greetExp.metrics ∧
    assignedExp.isActive = true :=
  let h := claim_C10_failed_render hashZero greetReg greetExp "u" [] .missingVariable
    assignedExp rfl rfl
  ⟨h.1, h.2.1, h.2.2.1⟩

end MasterTemplate
